import Mathlib

/-!
Verification of the EST SMTP test server core (src/est.py): the session
state machine (`_handle_client`), address extractor (`_extract_email`),
relay dispatcher (`_relay_email`, `_process_email`) and MX resolver
(`_get_mx_servers`).

Modelling conventions:
* Python strings are `List Char` (the source decodes with
  `errors='ignore'`, so every value is a plain character sequence).
  `str.upper` / `str.strip` are modelled for the ASCII range, which is
  the range every protocol keyword and every claim exercises.
* Network effects are oracles passed as parameters: `mxLookup` models
  `dns.resolver.resolve(domain, 'MX')` (`none` = any failure: import
  error, lookup error, no records), `resolves` models
  `socket.gethostbyname` succeeding, and `att host payload` models one
  `smtplib.SMTP(host, 25); sendmail(...); quit()` transaction completing
  without an exception.
* Exception handling in the source (`try`/`except` returning `False`,
  the per-host `continue`) is made explicit with `Option`/`Bool` control
  flow at exactly the places the source can raise.
* Loops that have observable network side effects additionally return
  the trace of attempts they performed, so that "host X was never
  attempted" is expressible.
-/

namespace EST

/-- Python whitespace for `str.split()` / `str.strip()` (ASCII range). -/
def isPySpace (c : Char) : Bool :=
  c = ' ' || c = '\t' || c = '\n' || c = '\r' || c = '\x0b' || c = '\x0c'

/-- Test whether `s` starts with `p` (Python `str.startswith`). -/
def startsWithL : List Char → List Char → Bool
  | _, [] => true
  | [], _ :: _ => false
  | c :: s, d :: p => c = d && startsWithL s p

/-- Test whether `s` ends with `p` (Python `str.endswith`). -/
def endsWithL (s p : List Char) : Bool :=
  startsWithL s.reverse p.reverse

/-- Python `str.strip()` (strip whitespace on both ends, ASCII range). -/
def pstrip (s : List Char) : List Char :=
  ((s.dropWhile isPySpace).reverse.dropWhile isPySpace).reverse

/-- Python `str.upper()` (ASCII range: `a`-`z` to `A`-`Z`). -/
def pyUpper (s : List Char) : List Char :=
  s.map Char.toUpper

/-- Python `str.strip('<>')`: strip leading and trailing angle brackets. -/
def stripAngles (s : List Char) : List Char :=
  ((s.dropWhile fun c => c = '<' || c = '>').reverse.dropWhile
    fun c => c = '<' || c = '>').reverse

/-- Worker for `tokens`: `cur` is the reversed in-progress token. -/
def tokensGo (cur : List Char) : List Char → List (List Char)
  | [] => if cur.isEmpty then [] else [cur.reverse]
  | c :: rest =>
    if isPySpace c then
      if cur.isEmpty then tokensGo [] rest
      else cur.reverse :: tokensGo [] rest
    else tokensGo (c :: cur) rest

/-- Python `str.split()`: split on whitespace runs, dropping empties. -/
def tokens (s : List Char) : List (List Char) :=
  tokensGo [] s

/-- Python `str.split(sep)` for a one-character separator (keeps empties):
`"a@b".split('@') = ["a","b"]`, `"".split('@') = [""]`. -/
def splitChar (sep : Char) : List Char → List (List Char)
  | [] => [[]]
  | c :: rest =>
    let r := splitChar sep rest
    if c = sep then [] :: r
    else
      match r with
      | [] => [[c]]
      | t :: ts => (c :: t) :: ts

/-- Scanner for the lazy regex `<(.+?)>` after its opening bracket: `acc`
is the reversed content matched so far (nonempty), and the scan returns
the content up to the first `'>'`, failing at a newline (which `.` does
not match) or at the end of the line. -/
def closeSpan (acc : List Char) : List Char → Option (List Char)
  | [] => none
  | c :: rest =>
    if c = '>' then some acc.reverse
    else if c = '\n' then none
    else closeSpan (c :: acc) rest

/-- Model of the search for the lazy pattern bracket-dot-plus-bracket
(the regex in `_extract_email`): the leftmost `'<'` that is followed by
a nonempty newline-free run of characters ending at a `'>'`; lazy, so the
first viable `'>'` closes the span. Returns the captured group. -/
def firstSpan : List Char → Option (List Char)
  | [] => none
  | c :: rest =>
    if c = '<' then
      match rest with
      | [] => none
      | d :: rest2 =>
        if d = '\n' then firstSpan rest
        else
          match closeSpan [d] rest2 with
          | some content => some content
          | none => firstSpan rest
    else firstSpan rest

/-- Model of `SMTPTestServer._extract_email`: angle-bracket capture first, else the
last whitespace token stripped of angle brackets, else empty. -/
def extract_email (smtp_line : List Char) : List Char :=
  match firstSpan smtp_line with
  | some content => content
  | none =>
    let parts := tokens smtp_line
    if parts.length > 1 then stripAngles (parts.getLastD []) else []

/-- C4 exactly as the spec states it: whenever the line contains a
non-empty angle-bracket-delimited span, the extractor returns the
contents of (some such) span verbatim. -/
def extractClaimC4 : Prop :=
  ∀ line pre mid post : List Char,
    line = pre ++ '<' :: (mid ++ '>' :: post) →
    mid ≠ [] →
    ∃ preB midB postB : List Char,
      line = preB ++ '<' :: (midB ++ '>' :: postB) ∧ midB ≠ [] ∧
      extract_email line = midB

/-! ### MX resolution (`_get_mx_servers`) -/

/-- Ordering used by `sorted(mx_records, key=lambda x: x.preference)`:
an MX record is a pair of numeric preference and exchange name. -/
def prefLE (p q : Nat × List Char) : Prop :=
  p.1 ≤ q.1

instance : DecidableRel prefLE := fun p q => Nat.decLe p.1 q.1

instance : IsTotal (Nat × List Char) prefLE :=
  ⟨fun p q => Nat.le_total p.1 q.1⟩

instance : IsTrans (Nat × List Char) prefLE :=
  ⟨fun _ _ _ h1 h2 => Nat.le_trans h1 h2⟩

/-- Python's `sorted` by preference key: `sorted` is stable, so any
stable sort models it; insertion sort below is stable for `prefLE`. -/
def sortByPref (records : List (Nat × List Char)) : List (Nat × List Char) :=
  List.insertionSort prefLE records

/-- Model of the exchange-name cleanup `rstrip('.')`: drop trailing
root-label dots. -/
def rstripDot (s : List Char) : List Char :=
  (s.reverse.dropWhile fun c => c = '.').reverse

/-- The `for mx in fallbacks: try gethostbyname ... append / continue`
loop: keep, in order, the candidates the probe resolves. -/
def fallbackLoop (resolves : List Char → Bool) : List (List Char) → List (List Char)
  | [] => []
  | h :: rest =>
    if resolves h then h :: fallbackLoop resolves rest
    else fallbackLoop resolves rest

/-- The three conventional fallback candidates for a domain. -/
def fallbacks (domain : List Char) : List (List Char) :=
  [String.toList "mail." ++ domain, String.toList "mx." ++ domain,
   String.toList "mx1." ++ domain]

/-- Model of `SMTPTestServer._get_mx_servers`. `mxLookup domain = some records`
models `dns.resolver.resolve(domain, 'MX')` succeeding with `records`;
`none` models every failure mode (ImportError or a raised lookup error),
all of which reach the fallback block. `resolves` models
`socket.gethostbyname` succeeding. -/
def get_mx_servers (mxLookup : List Char → Option (List (Nat × List Char)))
    (resolves : List Char → Bool) (domain : List Char) : List (List Char) :=
  match mxLookup domain with
  | some records => (sortByPref records).map fun r => rstripDot r.2
  | none => fallbackLoop resolves (fallbacks domain)

/-! ### Relay dispatch (`_relay_email`, `_process_email`) -/

/-- Model of the synthesized payload of `_relay_email`: a From header
line, a To header line, then the original body. -/
def full_email (mail_from rcpt_to email_data : List Char) : List Char :=
  String.toList "From: " ++ mail_from ++ String.toList "\r\n" ++
    String.toList "To: " ++ rcpt_to ++ String.toList "\r\n" ++ email_data

/-- The `for mx_server in mx_servers` loop of `_relay_email`: try each
host in order; `attOk h = true` models the `smtplib` transaction against
`h` completing without an exception (then `return True`), `false` models
the `except ... continue` branch. Returns the outcome and the trace of
hosts actually attempted. -/
def relay_attempts (attOk : List Char → Bool) : List (List Char) → Bool × List (List Char)
  | [] => (false, [])
  | h :: rest =>
    if attOk h then (true, [h])
    else
      let r := relay_attempts attOk rest
      (r.1, h :: r.2)

/-- Model of `SMTPTestServer._relay_email`. Here `rcpt_to.split('@')[1]` raises
`IndexError` when the recipient has no `'@'`; the surrounding
`try`/`except` turns that into `return False` (with no host attempted),
modelled by the `none` branch. `att host payload` models one outbound
delivery of `payload` to `host` succeeding. -/
def relay_email (mxLookup : List Char → Option (List (Nat × List Char)))
    (resolves : List Char → Bool) (att : List Char → List Char → Bool)
    (mail_from rcpt_to email_data : List Char) : Bool × List (List Char) :=
  match (splitChar '@' rcpt_to)[1]? with
  | none => (false, [])
  | some domain =>
    relay_attempts (fun h => att h (full_email mail_from rcpt_to email_data))
      (get_mx_servers mxLookup resolves domain)

/-- The ordered candidate-host list `_relay_email` iterates for a
recipient: empty when the recipient yields no domain. -/
def candidate_hosts (mxLookup : List Char → Option (List (Nat × List Char)))
    (resolves : List Char → Bool) (rcpt_to : List Char) : List (List Char) :=
  match (splitChar '@' rcpt_to)[1]? with
  | none => []
  | some domain => get_mx_servers mxLookup resolves domain

/-- One persisted outcome record (`TestResult` dataclass, with the
`details` mapping of the `_process_email` call site flattened into
fields; the wall-clock `timestamp` is omitted from the model). -/
structure TestResult where
  test_type : List Char
  scenario : List Char
  target : List Char
  from_email : List Char
  success : Bool
  client_id : List Char
  total_targets : Nat
  successful_deliveries : Nat
  email_size : Nat
deriving DecidableEq

/-- The `for rcpt in rcpt_to` loop of `_process_email`: returns the
success count and the dispatch trace, one entry `(rcpt, hosts tried)`
per recipient, in order. -/
def dispatch_loop (mxLookup : List Char → Option (List (Nat × List Char)))
    (resolves : List Char → Bool) (att : List Char → List Char → Bool)
    (mail_from email_data : List Char) :
    List (List Char) → Nat × List (List Char × List (List Char))
  | [] => (0, [])
  | r :: rest =>
    let one := relay_email mxLookup resolves att mail_from r email_data
    let more := dispatch_loop mxLookup resolves att mail_from email_data rest
    ((if one.1 then 1 else 0) + more.1, (r, one.2) :: more.2)

/-- Model of `SMTPTestServer._process_email`: relay to every recipient, count the
successes, build and log exactly one `TestResult`, and report success
iff `success_count > 0`. -/
def process_email (mxLookup : List Char → Option (List (Nat × List Char)))
    (resolves : List Char → Bool) (att : List Char → List Char → Bool)
    (mail_from : List Char) (rcpt_to : List (List Char))
    (email_data client_id : List Char) :
    Bool × TestResult × List (List Char × List (List Char)) :=
  let run := dispatch_loop mxLookup resolves att mail_from email_data rcpt_to
  (run.1 > 0,
   { test_type := String.toList "smtp_relay"
     scenario := String.toList "server_relay"
     target := List.intercalate (String.toList ", ") rcpt_to
     from_email := mail_from
     success := run.1 > 0
     client_id := client_id
     total_targets := rcpt_to.length
     successful_deliveries := run.1
     email_size := email_data.length },
   run.2)

/-! ### Session state machine (`_handle_client`) -/

/-- The per-connection envelope: `mail_from` and `rcpt_to` of
`_handle_client`, created empty and cleared on `RSET` and after each
`DATA` cycle. -/
structure Session where
  mail_from : List Char
  rcpt_to : List (List Char)
deriving DecidableEq

/-- The empty envelope (`mail_from = ""`, `rcpt_to = []`). -/
def emptySession : Session :=
  ⟨[], []⟩

/-- What the command loop does after handling one received string:
keep looping, enter the `DATA` body-reading loop, or `break`. -/
inductive NextAction where
  | proceed
  | enterBody
  | close
deriving DecidableEq

/-- Protocol keyword / reply constants of `_handle_client`. -/
def EHLO_KW : List Char := String.toList "EHLO"

def HELO_KW : List Char := String.toList "HELO"

def MAILFROM_KW : List Char := String.toList "MAIL FROM:"

def RCPTTO_KW : List Char := String.toList "RCPT TO:"

def DATA_KW : List Char := String.toList "DATA"

def QUIT_KW : List Char := String.toList "QUIT"

def RSET_KW : List Char := String.toList "RSET"

def R250_OK : List Char := String.toList "250 OK\r\n"

def R354 : List Char := String.toList "354 End data with <CR><LF>.<CR><LF>\r\n"

def R250_QUEUED : List Char := String.toList "250 OK Message queued for delivery\r\n"

def R550 : List Char := String.toList "550 Message delivery failed\r\n"

def R221 : List Char := String.toList "221 EST-SMTP closing connection\r\n"

def R500 : List Char := String.toList "500 Command not recognized\r\n"

/-- The `EHLO`/`HELO` reply, which embeds the peer address `addr[0]`. -/
def ehloReply (peer : List Char) : List Char :=
  String.toList "250-EST-SMTP Hello " ++ peer ++ String.toList "\r\n250 HELP\r\n"

/-- One iteration of the `while self.running` command loop of
`_handle_client`, applied to one received string `raw`: strip it (as
`recv(...).decode(...).strip()` does), close on an empty read, else
uppercase and run the `if`/`elif` chain. Returns the new envelope, the
replies sent (empty on the silent close) and what the loop does next.
The `DATA` branch replies `354` and hands over to `handle_data` below. -/
def handle_command (peer : List Char) (st : Session) (raw : List Char) :
    Session × List (List Char) × NextAction :=
  let data := pstrip raw
  if data.isEmpty then (st, [], NextAction.close)
  else
    let cmd := pyUpper data
    if startsWithL cmd EHLO_KW || startsWithL cmd HELO_KW then
      (st, [ehloReply peer], NextAction.proceed)
    else if startsWithL cmd MAILFROM_KW then
      ({ st with mail_from := extract_email data }, [R250_OK], NextAction.proceed)
    else if startsWithL cmd RCPTTO_KW then
      ({ st with rcpt_to := st.rcpt_to ++ [extract_email data] }, [R250_OK],
        NextAction.proceed)
    else if cmd = DATA_KW then
      (st, [R354], NextAction.enterBody)
    else if cmd = QUIT_KW then
      (st, [R221], NextAction.close)
    else if startsWithL cmd RSET_KW then
      (emptySession, [R250_OK], NextAction.proceed)
    else
      (st, [R500], NextAction.proceed)

/-- The 5-character end-of-body terminator `"\r\n.\r\n"`. -/
def TERM : List Char :=
  ['\r', '\n', '.', '\r', '\n']

/-- The body-reading loop of the `DATA` branch: `email_data` starts
empty; each `recv` chunk is appended and the loop breaks when the CHUNK
(`line` in the source) ends with the terminator. `chunks` is the
sequence of strings `recv` would yield; `none` means the provided
chunks are exhausted without the break firing, i.e. the real loop stays
blocked in `recv` waiting for more data. -/
def recv_body (email_data : List Char) : List (List Char) → Option (List Char)
  | [] => none
  | chunk :: rest =>
    let acc := email_data ++ chunk
    if endsWithL chunk TERM then some acc
    else recv_body acc rest

/-- The rest of the `DATA` branch after the `354` reply: read the body,
strip the final five characters (`email_data[:-5]`), run
`_process_email`, reply `250` or `550`, and reset the envelope. Returns
the reply, the envelope afterwards, the outcome records emitted (one
`_log_test_result` call per `_process_email` call) and the dispatch
trace. -/
def handle_data (mxLookup : List Char → Option (List (Nat × List Char)))
    (resolves : List Char → Bool) (att : List Char → List Char → Bool)
    (st : Session) (client_id : List Char) (chunks : List (List Char)) :
    Option (List Char × Session × List TestResult ×
      List (List Char × List (List Char))) :=
  match recv_body [] chunks with
  | none => none
  | some email_data =>
    let body := email_data.take (email_data.length - 5)
    let run := process_email mxLookup resolves att st.mail_from st.rcpt_to
      body client_id
    some (if run.1 then R250_QUEUED else R550, emptySession, [run.2.1], run.2.2)

/-- C7 exactly as the spec states it for its two "in particular" cases:
command recognition is by leading keyword for every table entry, so any
line whose upper-cased form begins with `DATA` gets `354` (entering the
body phase) and any line whose upper-cased form begins with `QUIT` gets
`221` followed by the close. -/
def sessionClaimC7 : Prop :=
  ∀ peer : List Char, ∀ st : Session, ∀ raw : List Char,
    (startsWithL (pyUpper (pstrip raw)) DATA_KW = true →
      handle_command peer st raw = (st, [R354], NextAction.enterBody)) ∧
    (startsWithL (pyUpper (pstrip raw)) QUIT_KW = true →
      handle_command peer st raw = (st, [R221], NextAction.close))

/-! ## Theorems -/

/-- C1. The source's body loop tests `line.endswith('\r\n.\r\n')` on the
most recent chunk only: when the client delivers `"hello\r\n."` and then
`"\r\n"`, the accumulated text ends with the 5-character terminator, yet
the loop does not consider the body complete (it stays blocked in
`recv`), contradicting the spec's "complete once the accumulated text
ends with the terminator". -/
theorem recv_body_misses_split_terminator :
    recv_body [] [String.toList "hello\r\n.", String.toList "\r\n"] = none ∧
    endsWithL (String.toList "hello\r\n." ++ String.toList "\r\n") TERM = true := by
  constructor
  · decide
  · decide

/-- Splitting on a character that does not occur yields the whole
string as the single part (so `parts[1]` raises). -/
theorem splitChar_not_mem {sep : Char} {s : List Char} (h : sep ∉ s) :
    splitChar sep s = [s] := by
  induction s with
  | nil => rfl
  | cons c rest ih =>
    simp only [List.mem_cons, not_or] at h
    simp [splitChar, Ne.symm h.1, ih h.2]

/-- C10. A recipient with no `'@'` makes `rcpt_to.split('@')[1]` raise
`IndexError`; the enclosing handler converts this into the boolean
outcome `False` (and no host is ever attempted), so a malformed
recipient never aborts the session. -/
theorem relay_email_no_at (mxLookup : List Char → Option (List (Nat × List Char)))
    (resolves : List Char → Bool) (att : List Char → List Char → Bool)
    (mail_from rcpt_to email_data : List Char) (h : '@' ∉ rcpt_to) :
    relay_email mxLookup resolves att mail_from rcpt_to email_data = (false, []) := by
  simp [relay_email, splitChar_not_mem h]

/-- Witness for `relay_email_no_at` at the concrete recipient
`"nodomain"`. -/
theorem relay_email_no_at_witness :
    relay_email (fun _ => some [(1, String.toList "m")]) (fun _ => true)
      (fun _ _ => true) [] (String.toList "nodomain") [] = (false, []) :=
  relay_email_no_at _ _ _ [] (String.toList "nodomain") [] (by decide)

/-- The attempt trace of the relay loop is an in-order initial segment
of the candidate list. -/
theorem relay_attempts_trace (attOk : List Char → Bool) (hosts : List (List Char)) :
    ∃ rest, (relay_attempts attOk hosts).2 ++ rest = hosts := by
  induction hosts with
  | nil => exact ⟨[], rfl⟩
  | cons h t ih =>
    by_cases ha : attOk h = true
    · exact ⟨t, by simp [relay_attempts, ha]⟩
    · obtain ⟨r, hr⟩ := ih
      exact ⟨r, by simp [relay_attempts, ha, hr]⟩

/-- The relay loop reports success iff some candidate delivers. -/
theorem relay_attempts_any (attOk : List Char → Bool) (hosts : List (List Char)) :
    (relay_attempts attOk hosts).1 = hosts.any attOk := by
  induction hosts with
  | nil => rfl
  | cons h t ih =>
    by_cases ha : attOk h = true
    · simp [relay_attempts, ha]
    · simp [relay_attempts, ha, ih]

/-- On success the trace is the failing candidates up to and including
the first success, and nothing after it. -/
theorem relay_attempts_stop (attOk : List Char → Bool) (hosts : List (List Char))
    (h : (relay_attempts attOk hosts).1 = true) :
    ∃ pre last, (relay_attempts attOk hosts).2 = pre ++ [last] ∧
      attOk last = true ∧ ∀ g ∈ pre, attOk g = false := by
  induction hosts with
  | nil => simp [relay_attempts] at h
  | cons hd t ih =>
    by_cases ha : attOk hd = true
    · exact ⟨[], hd, by simp [relay_attempts, ha], ha, by simp⟩
    · simp only [relay_attempts, ha, if_false] at h ⊢
      obtain ⟨pre, last, htr, hlast, hpre⟩ := ih h
      refine ⟨hd :: pre, last, by simp [htr], hlast, ?_⟩
      intro g hg
      rcases List.mem_cons.mp hg with rfl | hg
      · simpa using ha
      · exact hpre g hg

/-- C2. `_relay_email` attempts the resolved candidate hosts strictly
in list order (its attempt trace is an initial segment of the candidate
list), succeeds iff some candidate delivers, stops immediately after
the first success (everything before the last attempted host failed),
and with three candidates of which the second succeeds the trace is
exactly the first two — the third is never attempted. -/
theorem relay_email_first_success
    (mxLookup : List Char → Option (List (Nat × List Char)))
    (resolves : List Char → Bool) (att : List Char → List Char → Bool)
    (mail_from rcpt_to email_data domain : List Char)
    (hdom : (splitChar '@' rcpt_to)[1]? = some domain) :
    (∃ rest, (relay_email mxLookup resolves att mail_from rcpt_to email_data).2 ++ rest =
        get_mx_servers mxLookup resolves domain) ∧
    ((relay_email mxLookup resolves att mail_from rcpt_to email_data).1 = true ↔
      (get_mx_servers mxLookup resolves domain).any
        (fun h => att h (full_email mail_from rcpt_to email_data)) = true) ∧
    ((relay_email mxLookup resolves att mail_from rcpt_to email_data).1 = true →
      ∃ pre last,
        (relay_email mxLookup resolves att mail_from rcpt_to email_data).2 = pre ++ [last] ∧
        att last (full_email mail_from rcpt_to email_data) = true ∧
        ∀ g ∈ pre, att g (full_email mail_from rcpt_to email_data) = false) ∧
    (∀ h1 h2 h3 : List Char,
      att h1 (full_email mail_from rcpt_to email_data) = false →
      att h2 (full_email mail_from rcpt_to email_data) = true →
      relay_attempts (fun h => att h (full_email mail_from rcpt_to email_data))
        [h1, h2, h3] = (true, [h1, h2])) := by
  have hre : relay_email mxLookup resolves att mail_from rcpt_to email_data =
      relay_attempts (fun h => att h (full_email mail_from rcpt_to email_data))
        (get_mx_servers mxLookup resolves domain) := by
    simp [relay_email, hdom]
  refine ⟨?_, ?_, ?_, ?_⟩
  · rw [hre]; exact relay_attempts_trace _ _
  · rw [hre, relay_attempts_any]
  · rw [hre]; exact relay_attempts_stop _ _
  · intro h1 h2 h3 hf ht
    simp [relay_attempts, hf, ht]

/-- Witness for `relay_email_first_success`: concrete recipient
`"u@d"`, a failing first host and a succeeding second host; the trace
stops at the second host and the third is absent. -/
theorem relay_email_first_success_witness :
    relay_attempts
      (fun h => (fun hst _ => hst == String.toList "h2") h
        (full_email [] (String.toList "u@d") []))
      [String.toList "h1", String.toList "h2", String.toList "h3"] =
      (true, [String.toList "h1", String.toList "h2"]) :=
  (relay_email_first_success (fun _ => none) (fun _ => false)
      (fun hst _ => hst == String.toList "h2") [] (String.toList "u@d") []
      (String.toList "d") (by decide)).2.2.2
    (String.toList "h1") (String.toList "h2") (String.toList "h3")
    (by decide) (by decide)

/-- Dispatch covers every recipient, in order: no failure aborts the
remaining attempts. -/
theorem dispatch_loop_covers
    (mxLookup : List Char → Option (List (Nat × List Char)))
    (resolves : List Char → Bool) (att : List Char → List Char → Bool)
    (mail_from email_data : List Char) (rcpt_to : List (List Char)) :
    (dispatch_loop mxLookup resolves att mail_from email_data rcpt_to).2.map Prod.fst =
      rcpt_to := by
  induction rcpt_to with
  | nil => rfl
  | cons r rest ih => simp [dispatch_loop, ih]

/-- The success count is positive iff some recipient's relay succeeded. -/
theorem dispatch_loop_pos
    (mxLookup : List Char → Option (List (Nat × List Char)))
    (resolves : List Char → Bool) (att : List Char → List Char → Bool)
    (mail_from email_data : List Char) (rcpt_to : List (List Char)) :
    (0 < (dispatch_loop mxLookup resolves att mail_from email_data rcpt_to).1) ↔
      ∃ r ∈ rcpt_to,
        (relay_email mxLookup resolves att mail_from r email_data).1 = true := by
  induction rcpt_to with
  | nil => simp [dispatch_loop]
  | cons r rest ih =>
    cases hr : (relay_email mxLookup resolves att mail_from r email_data).1 with
    | true => simp [dispatch_loop, hr]
    | false => simp [dispatch_loop, hr, ih]

/-- Failure of `_relay_email` happens exactly when every candidate host
for the recipient fails (vacuously so when the recipient yields no
domain and hence no candidates). -/
theorem relay_email_false_iff
    (mxLookup : List Char → Option (List (Nat × List Char)))
    (resolves : List Char → Bool) (att : List Char → List Char → Bool)
    (mail_from rcpt_to email_data : List Char) :
    (relay_email mxLookup resolves att mail_from rcpt_to email_data).1 = false ↔
      ∀ h ∈ candidate_hosts mxLookup resolves rcpt_to,
        att h (full_email mail_from rcpt_to email_data) = false := by
  cases hdom : (splitChar '@' rcpt_to)[1]? with
  | none => simp [relay_email, candidate_hosts, hdom]
  | some domain =>
    simp only [relay_email, candidate_hosts, hdom, relay_attempts_any]
    rw [← Bool.not_eq_true, List.any_eq_true]
    simp

/-- C3. `_process_email` dispatches once per recipient in list order
(the dispatch trace lists exactly the recipients, so no per-recipient
failure aborts the rest), succeeds iff at least one per-recipient
dispatch succeeded, fails exactly when every candidate host of every
recipient fails, and the one emitted record carries that outcome and
the recipient count. -/
theorem process_email_at_least_one
    (mxLookup : List Char → Option (List (Nat × List Char)))
    (resolves : List Char → Bool) (att : List Char → List Char → Bool)
    (mail_from : List Char) (rcpt_to : List (List Char))
    (email_data client_id : List Char) :
    ((process_email mxLookup resolves att mail_from rcpt_to email_data
        client_id).2.2.map Prod.fst = rcpt_to) ∧
    ((process_email mxLookup resolves att mail_from rcpt_to email_data
        client_id).1 = true ↔
      ∃ r ∈ rcpt_to,
        (relay_email mxLookup resolves att mail_from r email_data).1 = true) ∧
    ((process_email mxLookup resolves att mail_from rcpt_to email_data
        client_id).1 = false ↔
      ∀ r ∈ rcpt_to, ∀ h ∈ candidate_hosts mxLookup resolves r,
        att h (full_email mail_from r email_data) = false) ∧
    ((process_email mxLookup resolves att mail_from rcpt_to email_data
        client_id).2.1.success =
      (process_email mxLookup resolves att mail_from rcpt_to email_data
        client_id).1) ∧
    ((process_email mxLookup resolves att mail_from rcpt_to email_data
        client_id).2.1.total_targets = rcpt_to.length) := by
  refine ⟨dispatch_loop_covers _ _ _ _ _ _, ?_, ?_, rfl, rfl⟩
  · simpa [process_email] using
      dispatch_loop_pos mxLookup resolves att mail_from email_data rcpt_to
  · have hpos := dispatch_loop_pos mxLookup resolves att mail_from email_data rcpt_to
    constructor
    · intro hf r hr h hh
      have hnot : ¬ 0 < (dispatch_loop mxLookup resolves att mail_from email_data
          rcpt_to).1 := by
        simp only [process_email, decide_eq_false_iff_not] at hf
        exact hf
      have hall := (not_iff_not.mpr hpos).mp hnot
      push_neg at hall
      have hrel : ¬ (relay_email mxLookup resolves att mail_from r email_data).1 =
          true := hall r hr
      have := (relay_email_false_iff mxLookup resolves att mail_from r
        email_data).mp (by simpa using hrel)
      exact this h hh
    · intro hall
      have hnone : ¬ ∃ r ∈ rcpt_to,
          (relay_email mxLookup resolves att mail_from r email_data).1 = true := by
        rintro ⟨r, hr, hrel⟩
        have hfalse := (relay_email_false_iff mxLookup resolves att mail_from r
          email_data).mpr (hall r hr)
        rw [hrel] at hfalse
        exact absurd hfalse (by decide)
      have hnot := (not_iff_not.mpr hpos).mpr hnone
      simp only [process_email, decide_eq_false_iff_not]
      exact hnot

/-- Witness for `process_email_at_least_one`: with two recipients of
which only the second can be delivered, the overall outcome is
success. -/
theorem process_email_at_least_one_witness :
    (process_email (fun _ => some [(1, String.toList "m")]) (fun _ => false)
      (fun hst _ => hst == String.toList "m") (String.toList "a@s")
      [String.toList "bad", String.toList "b@x"] [] []).1 = true :=
  (process_email_at_least_one (fun _ => some [(1, String.toList "m")])
      (fun _ => false) (fun hst _ => hst == String.toList "m")
      (String.toList "a@s") [String.toList "bad", String.toList "b@x"] []
      []).2.1.mpr
    ⟨String.toList "b@x", by decide, by decide⟩

/-- Stability of one ordered insertion: filtering the insertion of `x`
at a fixed preference value either prepends `x` (when `x` has that
value) or leaves the filtered list unchanged. -/
theorem filter_orderedInsert (n : Nat) (x : Nat × List Char)
    (l : List (Nat × List Char)) :
    (List.orderedInsert prefLE x l).filter (fun r => r.1 == n) =
      if x.1 == n then x :: l.filter (fun r => r.1 == n)
      else l.filter (fun r => r.1 == n) := by
  induction l with
  | nil => by_cases hx : x.1 = n <;> simp [List.orderedInsert, hx]
  | cons y ys ih =>
    by_cases hxy : prefLE x y
    · simp only [List.orderedInsert, if_pos hxy]
      by_cases hx : x.1 = n <;> simp [List.filter_cons, hx]
    · have hyx : y.1 < x.1 := by
        simp only [prefLE, not_le] at hxy
        exact hxy
      simp only [List.orderedInsert, if_neg hxy]
      by_cases hx : x.1 = n
      · have hy : ¬ y.1 = n := by omega
        simp [List.filter_cons, hx, hy, ih]
      · by_cases hy : y.1 = n <;> simp [List.filter_cons, hx, hy, ih]

/-- Stability of the modelled `sorted`: filtering at any fixed
preference value commutes with sorting, i.e. records with equal
preference keep their original relative order. -/
theorem filter_sortByPref (n : Nat) (records : List (Nat × List Char)) :
    (sortByPref records).filter (fun r => r.1 == n) =
      records.filter (fun r => r.1 == n) := by
  induction records with
  | nil => rfl
  | cons x l ih =>
    have ih2 : (List.insertionSort prefLE l).filter (fun r => r.1 == n) =
        l.filter (fun r => r.1 == n) := ih
    show (List.orderedInsert prefLE x (List.insertionSort prefLE l)).filter _ = _
    rw [filter_orderedInsert]
    by_cases hx : x.1 = n
    · simp [List.filter_cons, hx, ih2]
    · simp [List.filter_cons, hx, ih2]

/-- C5. On a successful MX lookup, the returned host names are the
exchanges of the records sorted in ascending preference order, stably
(filtering at any preference value preserves the lookup's original
order), each with trailing root-label dots stripped; on the spec's
example records `[(10, "mx1.x"), (5, "mx0.x")]` the result is
`["mx0.x", "mx1.x"]`. -/
theorem get_mx_servers_sorted_stable
    (mxLookup : List Char → Option (List (Nat × List Char)))
    (resolves : List Char → Bool) (domain : List Char)
    (records : List (Nat × List Char)) (hmx : mxLookup domain = some records) :
    (∃ s : List (Nat × List Char),
      get_mx_servers mxLookup resolves domain = s.map (fun r => rstripDot r.2) ∧
      List.Pairwise prefLE s ∧
      ∀ n : Nat, s.filter (fun r => r.1 == n) =
        records.filter (fun r => r.1 == n)) ∧
    get_mx_servers
        (fun _ => some [(10, String.toList "mx1.x"), (5, String.toList "mx0.x")])
        resolves (String.toList "x") =
      [String.toList "mx0.x", String.toList "mx1.x"] := by
  constructor
  · refine ⟨sortByPref records, by simp [get_mx_servers, hmx], ?_, ?_⟩
    · exact List.sorted_insertionSort prefLE records
    · intro n
      exact filter_sortByPref n records
  · rfl

/-- Witness for `get_mx_servers_sorted_stable` at the spec's example
records. -/
theorem get_mx_servers_sorted_stable_witness :
    get_mx_servers
        (fun _ => some [(10, String.toList "mx1.x"), (5, String.toList "mx0.x")])
        (fun _ => false) (String.toList "x") =
      [String.toList "mx0.x", String.toList "mx1.x"] :=
  (get_mx_servers_sorted_stable
      (fun _ => some [(10, String.toList "mx1.x"), (5, String.toList "mx0.x")])
      (fun _ => false) (String.toList "x")
      [(10, String.toList "mx1.x"), (5, String.toList "mx0.x")] rfl).2

/-- The fallback probe loop is exactly a filter. -/
theorem fallbackLoop_eq_filter (resolves : List Char → Bool)
    (l : List (List Char)) : fallbackLoop resolves l = l.filter resolves := by
  induction l with
  | nil => rfl
  | cons h t ih =>
    by_cases hr : resolves h = true
    · simp [fallbackLoop, hr, ih]
    · simp [fallbackLoop, hr, ih, List.filter_cons]

/-- C6. When the MX lookup fails entirely, the resolver returns exactly
the probe-filtered sublist of `mail.<domain>, mx.<domain>, mx1.<domain>`
in that fixed order, and the empty list (no exception) when none
resolve. -/
theorem get_mx_servers_fallback
    (mxLookup : List Char → Option (List (Nat × List Char)))
    (resolves : List Char → Bool) (domain : List Char)
    (hmx : mxLookup domain = none) :
    get_mx_servers mxLookup resolves domain = (fallbacks domain).filter resolves ∧
    (get_mx_servers mxLookup resolves domain).Sublist (fallbacks domain) ∧
    ((∀ h ∈ fallbacks domain, resolves h = false) →
      get_mx_servers mxLookup resolves domain = []) := by
  have heq : get_mx_servers mxLookup resolves domain =
      (fallbacks domain).filter resolves := by
    simp [get_mx_servers, hmx, fallbackLoop_eq_filter]
  refine ⟨heq, ?_, ?_⟩
  · rw [heq]; exact List.filter_sublist _
  · intro hall
    rw [heq]
    exact List.filter_eq_nil_iff.mpr fun h hm => by simp [hall h hm]

/-- Witness for `get_mx_servers_fallback`: with only `mail.d` resolving,
the result is `[mail.d]`. -/
theorem get_mx_servers_fallback_witness :
    get_mx_servers (fun _ => none) (fun h => h == String.toList "mail.d")
      (String.toList "d") = [String.toList "mail.d"] :=
  (get_mx_servers_fallback (fun _ => none) (fun h => h == String.toList "mail.d")
      (String.toList "d") rfl).1.trans (by decide)

/-- A string extends every position of a keyword it starts with. -/
theorem startsWithL_getElem {s p : List Char} (h : startsWithL s p = true) :
    ∀ (i : Nat) (c : Char), p[i]? = some c → s[i]? = some c := by
  induction p generalizing s with
  | nil => intro i c hc; simp at hc
  | cons d p ih =>
    cases s with
    | nil => simp [startsWithL] at h
    | cons a s =>
      simp only [startsWithL, Bool.and_eq_true, decide_eq_true_eq] at h
      intro i c hc
      cases i with
      | zero =>
        simp only [List.getElem?_cons_zero, Option.some.injEq] at hc ⊢
        rw [h.1, hc]
      | succ i =>
        simp only [List.getElem?_cons_succ] at hc ⊢
        exact ih h.2 i c hc

/-- A keyword mismatch at any single position refutes the keyword
test. -/
theorem startsWithL_false_of_getElem {s p : List Char} {i : Nat} {a b : Char}
    (hs : s[i]? = some a) (hp : p[i]? = some b) (hab : a ≠ b) :
    startsWithL s p = false := by
  cases hsw : startsWithL s p with
  | false => rfl
  | true =>
    have := startsWithL_getElem hsw i b hp
    rw [hs] at this
    exact absurd (Option.some.inj this) hab

/-- Two strings differing at one position are different. -/
theorem ne_of_getElem_ne {s t : List Char} {i : Nat} {a b : Char}
    (hs : s[i]? = some a) (ht : t[i]? = some b) (hab : a ≠ b) : s ≠ t := by
  intro h
  rw [h, ht] at hs
  exact hab (Option.some.inj hs).symm

/-- A command whose upper-cased form is known at a position has a
non-empty stripped form. -/
theorem pstrip_not_empty {raw : List Char} {i : Nat} {c : Char}
    (h : (pyUpper (pstrip raw))[i]? = some c) : (pstrip raw).isEmpty = false := by
  cases hp : pstrip raw with
  | nil => rw [hp] at h; simp [pyUpper] at h
  | cons a t => rfl

/-- The `MAIL FROM:` branch: sender replaced, `250`. -/
theorem handle_command_mailfrom (peer : List Char) (st : Session) (raw : List Char)
    (h : startsWithL (pyUpper (pstrip raw)) MAILFROM_KW = true) :
    handle_command peer st raw =
      ({ st with mail_from := extract_email (pstrip raw) }, [R250_OK],
        NextAction.proceed) := by
  have h0 : (pyUpper (pstrip raw))[0]? = some 'M' :=
    startsWithL_getElem h 0 'M' (by decide)
  have hne := pstrip_not_empty h0
  have hE : startsWithL (pyUpper (pstrip raw)) EHLO_KW = false :=
    startsWithL_false_of_getElem h0 (show EHLO_KW[0]? = some 'E' by decide)
      (by decide)
  have hH : startsWithL (pyUpper (pstrip raw)) HELO_KW = false :=
    startsWithL_false_of_getElem h0 (show HELO_KW[0]? = some 'H' by decide)
      (by decide)
  simp [handle_command, hne, hE, hH, h]

/-- The `RCPT TO:` branch: extracted address appended, `250`. -/
theorem handle_command_rcptto (peer : List Char) (st : Session) (raw : List Char)
    (h : startsWithL (pyUpper (pstrip raw)) RCPTTO_KW = true) :
    handle_command peer st raw =
      ({ st with rcpt_to := st.rcpt_to ++ [extract_email (pstrip raw)] },
        [R250_OK], NextAction.proceed) := by
  have h0 : (pyUpper (pstrip raw))[0]? = some 'R' :=
    startsWithL_getElem h 0 'R' (by decide)
  have hne := pstrip_not_empty h0
  have hE : startsWithL (pyUpper (pstrip raw)) EHLO_KW = false :=
    startsWithL_false_of_getElem h0 (show EHLO_KW[0]? = some 'E' by decide)
      (by decide)
  have hH : startsWithL (pyUpper (pstrip raw)) HELO_KW = false :=
    startsWithL_false_of_getElem h0 (show HELO_KW[0]? = some 'H' by decide)
      (by decide)
  have hM : startsWithL (pyUpper (pstrip raw)) MAILFROM_KW = false :=
    startsWithL_false_of_getElem h0 (show MAILFROM_KW[0]? = some 'M' by decide)
      (by decide)
  simp [handle_command, hne, hE, hH, hM, h]

/-- The greeting branch: `EHLO`/`HELO` reply, envelope unchanged. -/
theorem handle_command_ehlo (peer : List Char) (st : Session) (raw : List Char)
    (h : (startsWithL (pyUpper (pstrip raw)) EHLO_KW ||
      startsWithL (pyUpper (pstrip raw)) HELO_KW) = true) :
    handle_command peer st raw = (st, [ehloReply peer], NextAction.proceed) := by
  have h0 : ∃ c, (pyUpper (pstrip raw))[0]? = some c := by
    rcases Bool.or_eq_true_iff.mp h with h1 | h1
    · exact ⟨'E', startsWithL_getElem h1 0 'E' (by decide)⟩
    · exact ⟨'H', startsWithL_getElem h1 0 'H' (by decide)⟩
  obtain ⟨c, hc⟩ := h0
  have hne := pstrip_not_empty hc
  simp [handle_command, hne, h]

/-- The `RSET` branch: envelope cleared, `250`. -/
theorem handle_command_rset (peer : List Char) (st : Session) (raw : List Char)
    (h : startsWithL (pyUpper (pstrip raw)) RSET_KW = true) :
    handle_command peer st raw = (emptySession, [R250_OK], NextAction.proceed) := by
  have h0 : (pyUpper (pstrip raw))[0]? = some 'R' :=
    startsWithL_getElem h 0 'R' (by decide)
  have h1 : (pyUpper (pstrip raw))[1]? = some 'S' :=
    startsWithL_getElem h 1 'S' (by decide)
  have hne := pstrip_not_empty h0
  have hE : startsWithL (pyUpper (pstrip raw)) EHLO_KW = false :=
    startsWithL_false_of_getElem h0 (show EHLO_KW[0]? = some 'E' by decide)
      (by decide)
  have hH : startsWithL (pyUpper (pstrip raw)) HELO_KW = false :=
    startsWithL_false_of_getElem h0 (show HELO_KW[0]? = some 'H' by decide)
      (by decide)
  have hM : startsWithL (pyUpper (pstrip raw)) MAILFROM_KW = false :=
    startsWithL_false_of_getElem h0 (show MAILFROM_KW[0]? = some 'M' by decide)
      (by decide)
  have hR : startsWithL (pyUpper (pstrip raw)) RCPTTO_KW = false :=
    startsWithL_false_of_getElem h1 (show RCPTTO_KW[1]? = some 'C' by decide)
      (by decide)
  have hD : pyUpper (pstrip raw) ≠ DATA_KW :=
    ne_of_getElem_ne h0 (show DATA_KW[0]? = some 'D' by decide) (by decide)
  have hQ : pyUpper (pstrip raw) ≠ QUIT_KW :=
    ne_of_getElem_ne h0 (show QUIT_KW[0]? = some 'Q' by decide) (by decide)
  simp [handle_command, hne, hE, hH, hM, hR, hD, hQ, h]

/-- The `DATA` branch fires only on the exact (stripped, upper-cased)
word `DATA`: reply `354` and enter the body phase. -/
theorem handle_command_data_exact (peer : List Char) (st : Session)
    (raw : List Char) (h : pyUpper (pstrip raw) = DATA_KW) :
    handle_command peer st raw = (st, [R354], NextAction.enterBody) := by
  have h0 : (pyUpper (pstrip raw))[0]? = some 'D' := by rw [h]; decide
  have hne := pstrip_not_empty h0
  have hE : startsWithL DATA_KW EHLO_KW = false := by decide
  have hH : startsWithL DATA_KW HELO_KW = false := by decide
  have hM : startsWithL DATA_KW MAILFROM_KW = false := by decide
  have hR : startsWithL DATA_KW RCPTTO_KW = false := by decide
  simp [handle_command, hne, h, hE, hH, hM, hR]

/-- A line that merely begins with `DATA` without being exactly `DATA`
falls through to the unrecognized-command reply `500`. -/
theorem handle_command_data_proper (peer : List Char) (st : Session)
    (raw : List Char) (h : startsWithL (pyUpper (pstrip raw)) DATA_KW = true)
    (hne2 : pyUpper (pstrip raw) ≠ DATA_KW) :
    handle_command peer st raw = (st, [R500], NextAction.proceed) := by
  have h0 : (pyUpper (pstrip raw))[0]? = some 'D' :=
    startsWithL_getElem h 0 'D' (by decide)
  have hne := pstrip_not_empty h0
  have hE : startsWithL (pyUpper (pstrip raw)) EHLO_KW = false :=
    startsWithL_false_of_getElem h0 (show EHLO_KW[0]? = some 'E' by decide)
      (by decide)
  have hH : startsWithL (pyUpper (pstrip raw)) HELO_KW = false :=
    startsWithL_false_of_getElem h0 (show HELO_KW[0]? = some 'H' by decide)
      (by decide)
  have hM : startsWithL (pyUpper (pstrip raw)) MAILFROM_KW = false :=
    startsWithL_false_of_getElem h0 (show MAILFROM_KW[0]? = some 'M' by decide)
      (by decide)
  have hR : startsWithL (pyUpper (pstrip raw)) RCPTTO_KW = false :=
    startsWithL_false_of_getElem h0 (show RCPTTO_KW[0]? = some 'R' by decide)
      (by decide)
  have hQ : pyUpper (pstrip raw) ≠ QUIT_KW :=
    ne_of_getElem_ne h0 (show QUIT_KW[0]? = some 'Q' by decide) (by decide)
  have hS : startsWithL (pyUpper (pstrip raw)) RSET_KW = false :=
    startsWithL_false_of_getElem h0 (show RSET_KW[0]? = some 'R' by decide)
      (by decide)
  simp [handle_command, hne, hE, hH, hM, hR, hne2, hQ, hS]

/-- The `QUIT` branch fires only on the exact word `QUIT`: reply `221`
and close the connection. -/
theorem handle_command_quit_exact (peer : List Char) (st : Session)
    (raw : List Char) (h : pyUpper (pstrip raw) = QUIT_KW) :
    handle_command peer st raw = (st, [R221], NextAction.close) := by
  have h0 : (pyUpper (pstrip raw))[0]? = some 'Q' := by rw [h]; decide
  have hne := pstrip_not_empty h0
  have hE : startsWithL QUIT_KW EHLO_KW = false := by decide
  have hH : startsWithL QUIT_KW HELO_KW = false := by decide
  have hM : startsWithL QUIT_KW MAILFROM_KW = false := by decide
  have hR : startsWithL QUIT_KW RCPTTO_KW = false := by decide
  have hD : QUIT_KW ≠ DATA_KW := by decide
  simp [handle_command, hne, h, hE, hH, hM, hR, hD]

/-- A line that merely begins with `QUIT` without being exactly `QUIT`
falls through to the unrecognized-command reply `500`. -/
theorem handle_command_quit_proper (peer : List Char) (st : Session)
    (raw : List Char) (h : startsWithL (pyUpper (pstrip raw)) QUIT_KW = true)
    (hne2 : pyUpper (pstrip raw) ≠ QUIT_KW) :
    handle_command peer st raw = (st, [R500], NextAction.proceed) := by
  have h0 : (pyUpper (pstrip raw))[0]? = some 'Q' :=
    startsWithL_getElem h 0 'Q' (by decide)
  have hne := pstrip_not_empty h0
  have hE : startsWithL (pyUpper (pstrip raw)) EHLO_KW = false :=
    startsWithL_false_of_getElem h0 (show EHLO_KW[0]? = some 'E' by decide)
      (by decide)
  have hH : startsWithL (pyUpper (pstrip raw)) HELO_KW = false :=
    startsWithL_false_of_getElem h0 (show HELO_KW[0]? = some 'H' by decide)
      (by decide)
  have hM : startsWithL (pyUpper (pstrip raw)) MAILFROM_KW = false :=
    startsWithL_false_of_getElem h0 (show MAILFROM_KW[0]? = some 'M' by decide)
      (by decide)
  have hR : startsWithL (pyUpper (pstrip raw)) RCPTTO_KW = false :=
    startsWithL_false_of_getElem h0 (show RCPTTO_KW[0]? = some 'R' by decide)
      (by decide)
  have hD : pyUpper (pstrip raw) ≠ DATA_KW :=
    ne_of_getElem_ne h0 (show DATA_KW[0]? = some 'D' by decide) (by decide)
  have hS : startsWithL (pyUpper (pstrip raw)) RSET_KW = false :=
    startsWithL_false_of_getElem h0 (show RSET_KW[0]? = some 'R' by decide)
      (by decide)
  simp [handle_command, hne, hE, hH, hM, hR, hD, hne2, hS]

/-- C7 as stated is false: the source recognizes `DATA` (and `QUIT`)
by exact equality, not by leading keyword, so the line `"DATA X"` —
whose upper-cased form begins with `DATA` — receives `500`, not `354`. -/
theorem sessionClaimC7_false : ¬ sessionClaimC7 := by
  intro hcl
  have h2 := (hcl [] emptySession (String.toList "DATA X")).1 (by decide)
  have h3 : handle_command [] emptySession (String.toList "DATA X") =
      (emptySession, [R500], NextAction.proceed) := by decide
  rw [h3] at h2
  exact absurd h2 (by decide)

/-- C7 amended: recognition is case-insensitive on the stripped line;
`EHLO`/`HELO`, `MAIL FROM:`, `RCPT TO:` and `RSET` are matched by
leading keyword with the table's replies, while `DATA` and `QUIT` fire
only when the whole upper-cased line equals the keyword — a proper
extension of `DATA` or `QUIT` gets the `500` unrecognized reply. -/
theorem handle_command_table (peer : List Char) (st : Session) (raw : List Char) :
    ((startsWithL (pyUpper (pstrip raw)) EHLO_KW ||
        startsWithL (pyUpper (pstrip raw)) HELO_KW) = true →
      handle_command peer st raw = (st, [ehloReply peer], NextAction.proceed)) ∧
    (startsWithL (pyUpper (pstrip raw)) MAILFROM_KW = true →
      handle_command peer st raw =
        ({ st with mail_from := extract_email (pstrip raw) }, [R250_OK],
          NextAction.proceed)) ∧
    (startsWithL (pyUpper (pstrip raw)) RCPTTO_KW = true →
      handle_command peer st raw =
        ({ st with rcpt_to := st.rcpt_to ++ [extract_email (pstrip raw)] },
          [R250_OK], NextAction.proceed)) ∧
    (pyUpper (pstrip raw) = DATA_KW →
      handle_command peer st raw = (st, [R354], NextAction.enterBody)) ∧
    (startsWithL (pyUpper (pstrip raw)) DATA_KW = true →
      pyUpper (pstrip raw) ≠ DATA_KW →
      handle_command peer st raw = (st, [R500], NextAction.proceed)) ∧
    (pyUpper (pstrip raw) = QUIT_KW →
      handle_command peer st raw = (st, [R221], NextAction.close)) ∧
    (startsWithL (pyUpper (pstrip raw)) QUIT_KW = true →
      pyUpper (pstrip raw) ≠ QUIT_KW →
      handle_command peer st raw = (st, [R500], NextAction.proceed)) ∧
    (startsWithL (pyUpper (pstrip raw)) RSET_KW = true →
      handle_command peer st raw = (emptySession, [R250_OK], NextAction.proceed)) :=
  ⟨handle_command_ehlo peer st raw,
   handle_command_mailfrom peer st raw,
   handle_command_rcptto peer st raw,
   handle_command_data_exact peer st raw,
   handle_command_data_proper peer st raw,
   handle_command_quit_exact peer st raw,
   handle_command_quit_proper peer st raw,
   handle_command_rset peer st raw⟩

/-- Witness for `handle_command_table`: the corrected `DATA` row at the
concrete line `"DATA X"`. -/
theorem handle_command_table_witness :
    handle_command [] emptySession (String.toList "DATA X") =
      (emptySession, [R500], NextAction.proceed) :=
  (handle_command_table [] emptySession (String.toList "DATA X")).2.2.2.2.1
    (by decide) (by decide)

/-- C8. `RSET` (matched case-insensitively by leading keyword) always
yields the empty envelope and the `250` reply, from any state; issuing
it twice in a row gives that same empty envelope and reply both times,
and its effect from an already-empty envelope is identical to its
effect from any non-empty one. -/
theorem rset_idempotent (peer : List Char) (st : Session) (raw : List Char)
    (h : startsWithL (pyUpper (pstrip raw)) RSET_KW = true) :
    handle_command peer st raw = (emptySession, [R250_OK], NextAction.proceed) ∧
    handle_command peer emptySession raw =
      (emptySession, [R250_OK], NextAction.proceed) ∧
    ∀ st2 : Session, handle_command peer st2 raw = handle_command peer st raw :=
  ⟨handle_command_rset peer st raw h,
   handle_command_rset peer emptySession raw h,
   fun st2 => (handle_command_rset peer st2 raw h).trans
     (handle_command_rset peer st raw h).symm⟩

/-- Witness for `rset_idempotent` at the lower-case line `"rset"` from
a non-empty envelope. -/
theorem rset_idempotent_witness :
    handle_command [] ⟨String.toList "a@x", [String.toList "b@y"]⟩
      (String.toList "rset") = (emptySession, [R250_OK], NextAction.proceed) :=
  (rset_idempotent [] ⟨String.toList "a@x", [String.toList "b@y"]⟩
    (String.toList "rset") (by decide)).1

/-- C9. Completing `DATA` with an empty recipient list runs the
dispatch loop zero times (empty trace), `_process_email` returns
failure, the session replies `550`, exactly one outcome record is
emitted, carrying `success = false` and `total_targets = 0`, and the
envelope is reset. -/
theorem data_with_no_recipients
    (mxLookup : List Char → Option (List (Nat × List Char)))
    (resolves : List Char → Bool) (att : List Char → List Char → Bool)
    (st : Session) (client_id : List Char) (chunks : List (List Char))
    (email_data : List Char) (h0 : st.rcpt_to = [])
    (hrb : recv_body [] chunks = some email_data) :
    handle_data mxLookup resolves att st client_id chunks =
      some (R550, emptySession,
        [{ test_type := String.toList "smtp_relay"
           scenario := String.toList "server_relay"
           target := []
           from_email := st.mail_from
           success := false
           client_id := client_id
           total_targets := 0
           successful_deliveries := 0
           email_size := (email_data.take (email_data.length - 5)).length }],
        []) := by
  simp [handle_data, hrb, h0, process_email, dispatch_loop, List.intercalate]

/-- Witness for `data_with_no_recipients`: a session with a sender but
no recipient, completing a one-chunk body. -/
theorem data_with_no_recipients_witness :
    handle_data (fun _ => none) (fun _ => false) (fun _ _ => false)
      ⟨String.toList "a@x", []⟩ (String.toList "c")
      [String.toList "x\r\n.\r\n"] =
      some (R550, emptySession,
        [{ test_type := String.toList "smtp_relay"
           scenario := String.toList "server_relay"
           target := []
           from_email := String.toList "a@x"
           success := false
           client_id := String.toList "c"
           total_targets := 0
           successful_deliveries := 0
           email_size := 1 }],
        []) :=
  data_with_no_recipients (fun _ => none) (fun _ => false) (fun _ _ => false)
    ⟨String.toList "a@x", []⟩ (String.toList "c")
    [String.toList "x\r\n.\r\n"] (String.toList "x\r\n.\r\n") rfl (by decide)

/-- The lazy close scan succeeds on content that contains neither a
close bracket nor a newline. -/
theorem closeSpan_complete :
    ∀ m acc p : List Char, '\n' ∉ m → '>' ∉ m →
      closeSpan acc (m ++ '>' :: p) = some (acc.reverse ++ m)
  | [], acc, p, _, _ => by simp [closeSpan]
  | c :: m, acc, p, hnl, hgt => by
    have hc1 : ¬ c = '>' := fun hc => hgt (by simp [hc])
    have hc2 : ¬ c = '\n' := fun hc => hnl (by simp [hc])
    simp only [List.cons_append, closeSpan, if_neg hc1, if_neg hc2]
    simpa using closeSpan_complete m (c :: acc) p
      (fun hm => hnl (List.mem_cons_of_mem _ hm))
      (fun hm => hgt (List.mem_cons_of_mem _ hm))

/-- Conversely, a successful lazy close scan exhibits the first viable
close bracket: newline-free, bracket-free content before it. -/
theorem closeSpan_sound (s : List Char) (out acc : List Char)
    (h : closeSpan acc s = some out) :
    ∃ m p, s = m ++ '>' :: p ∧ '\n' ∉ m ∧ '>' ∉ m ∧
      out = acc.reverse ++ m := by
  induction s generalizing acc with
  | nil => simp [closeSpan] at h
  | cons c rest ih =>
    by_cases hc : c = '>'
    · subst hc
      simp only [closeSpan, if_pos] at h
      exact ⟨[], rest, rfl, by simp, by simp,
        by simpa using (Option.some.inj h).symm⟩
    · by_cases hn : c = '\n'
      · subst hn
        simp [closeSpan, hc] at h
      · simp only [closeSpan, if_neg hc, if_neg hn] at h
        obtain ⟨m, p, hs, hnl, hgt, hout⟩ := ih (c :: acc) h
        refine ⟨c :: m, p, by simp [hs], ?_, ?_, by simp [hout]⟩
        · simp only [List.mem_cons, not_or]
          exact ⟨fun hx => hn hx.symm, hnl⟩
        · simp only [List.mem_cons, not_or]
          exact ⟨fun hx => hc hx.symm, hgt⟩

/-- A successful regex search exhibits a non-empty newline-free
bracketed span in the line. -/
theorem firstSpan_sound (line out : List Char) (h : firstSpan line = some out) :
    ∃ pre mid post, line = pre ++ '<' :: (mid ++ '>' :: post) ∧
      mid ≠ [] ∧ '\n' ∉ mid := by
  induction line with
  | nil => simp [firstSpan] at h
  | cons c rest ih =>
    by_cases hc : c = '<'
    · subst hc
      cases rest with
      | nil => simp [firstSpan] at h
      | cons d rest2 =>
        by_cases hd : d = '\n'
        · simp only [firstSpan, if_pos rfl, if_pos hd] at h
          obtain ⟨pre, mid, post, heq, hne, hnl⟩ := ih h
          exact ⟨'<' :: pre, mid, post, by simp [heq], hne, hnl⟩
        · cases hcs : closeSpan [d] rest2 with
          | some content =>
            obtain ⟨m, p, hs, hnl, _, hout⟩ := closeSpan_sound rest2 content [d] hcs
            refine ⟨[], d :: m, p, by simp [hs], by simp, ?_⟩
            simp only [List.mem_cons, not_or]
            exact ⟨fun hx => hd hx.symm, hnl⟩
          | none =>
            simp only [firstSpan, if_pos rfl, if_neg hd, hcs] at h
            obtain ⟨pre, mid, post, heq, hne, hnl⟩ := ih h
            exact ⟨'<' :: pre, mid, post, by simp [heq], hne, hnl⟩
    · simp only [firstSpan, if_neg hc] at h
      obtain ⟨pre, mid, post, heq, hne, hnl⟩ := ih h
      exact ⟨c :: pre, mid, post, by simp [heq], hne, hnl⟩

/-- Step equation: after a `'<'`, a newline immediately aborts this
start and the search resumes one position later. -/
theorem firstSpan_lt_nl {e : Char} (rest2 : List Char) (he : e = '\n') :
    firstSpan ('<' :: e :: rest2) = firstSpan (e :: rest2) := by
  show (if e = '\n' then firstSpan (e :: rest2)
        else
          match closeSpan [e] rest2 with
          | some content => some content
          | none => firstSpan (e :: rest2)) = firstSpan (e :: rest2)
  rw [if_pos he]

/-- Step equation: after a `'<'`, a successful lazy close yields the
captured content. -/
theorem firstSpan_lt_some {e : Char} {rest2 out : List Char} (he : ¬ e = '\n')
    (hcs : closeSpan [e] rest2 = some out) :
    firstSpan ('<' :: e :: rest2) = some out := by
  show (if e = '\n' then firstSpan (e :: rest2)
        else
          match closeSpan [e] rest2 with
          | some content => some content
          | none => firstSpan (e :: rest2)) = some out
  rw [if_neg he, hcs]

/-- Step equation: after a `'<'`, a failed lazy close resumes the
search one position later. -/
theorem firstSpan_lt_none {e : Char} {rest2 : List Char} (he : ¬ e = '\n')
    (hcs : closeSpan [e] rest2 = none) :
    firstSpan ('<' :: e :: rest2) = firstSpan (e :: rest2) := by
  show (if e = '\n' then firstSpan (e :: rest2)
        else
          match closeSpan [e] rest2 with
          | some content => some content
          | none => firstSpan (e :: rest2)) = firstSpan (e :: rest2)
  rw [if_neg he, hcs]

/-- Step equation: a non-`'<'` head is skipped. -/
theorem firstSpan_not_lt {c : Char} (rest : List Char) (hc : ¬ c = '<') :
    firstSpan (c :: rest) = firstSpan rest := by
  cases rest with
  | nil => simp [firstSpan, hc]
  | cons d rest2 =>
    show (if c = '<' then
            if d = '\n' then firstSpan (d :: rest2)
            else
              match closeSpan [d] rest2 with
              | some content => some content
              | none => firstSpan (d :: rest2)
          else firstSpan (d :: rest2)) = firstSpan (d :: rest2)
    rw [if_neg hc]

/-- The regex search finds the designated span: if `mid` is non-empty,
newline-free, closed by the first viable bracket (no `'>'` past its
first character), and no `'<'` earlier in the line has any viable
close, then the search captures exactly `mid`. -/
theorem firstSpan_complete (mid post : List Char) (hne : mid ≠ [])
    (hnl : '\n' ∉ mid) (hgt : '>' ∉ mid.drop 1) :
    ∀ pre : List Char,
      (∀ pre1 rest1, pre = pre1 ++ '<' :: rest1 →
        ¬ ∃ m p, rest1 ++ '<' :: (mid ++ '>' :: post) = m ++ '>' :: p ∧
          m ≠ [] ∧ '\n' ∉ m) →
      firstSpan (pre ++ '<' :: (mid ++ '>' :: post)) = some mid := by
  intro pre
  induction pre with
  | nil =>
    intro _
    cases mid with
    | nil => exact absurd rfl hne
    | cons d mid2 =>
      have hd : ¬ d = '\n' := fun h => hnl (by simp [h])
      have hnl2 : '\n' ∉ mid2 := fun h => hnl (List.mem_cons_of_mem _ h)
      have hgt2 : '>' ∉ mid2 := by simpa using hgt
      simp only [List.nil_append, List.cons_append, firstSpan, if_pos rfl,
        if_neg hd]
      rw [closeSpan_complete mid2 [d] post hnl2 hgt2]
      simp
  | cons c pre ihp =>
    intro hleft
    have hleft2 : ∀ pre1 rest1, pre = pre1 ++ '<' :: rest1 →
        ¬ ∃ m p, rest1 ++ '<' :: (mid ++ '>' :: post) = m ++ '>' :: p ∧
          m ≠ [] ∧ '\n' ∉ m :=
      fun pre1 rest1 hp => hleft (c :: pre1) rest1 (by rw [hp]; rfl)
    by_cases hc : c = '<'
    · subst hc
      obtain ⟨e, rest2, hrest⟩ :
          ∃ e rest2, pre ++ '<' :: (mid ++ '>' :: post) = e :: rest2 := by
        cases pre with
        | nil => exact ⟨'<', mid ++ '>' :: post, rfl⟩
        | cons a t => exact ⟨a, t ++ '<' :: (mid ++ '>' :: post), rfl⟩
      rw [List.cons_append, hrest]
      by_cases he : e = '\n'
      · rw [firstSpan_lt_nl rest2 he, ← hrest]
        exact ihp hleft2
      · cases hcs : closeSpan [e] rest2 with
        | some out =>
          exfalso
          obtain ⟨m, p, hs, hnlm, _, _⟩ := closeSpan_sound rest2 out [e] hcs
          apply hleft [] pre rfl
          refine ⟨e :: m, p, ?_, by simp, ?_⟩
          · rw [hrest, hs]
            rfl
          · simp only [List.mem_cons, not_or]
            exact ⟨fun hx => he hx.symm, hnlm⟩
        | none =>
          rw [firstSpan_lt_none he hcs, ← hrest]
          exact ihp hleft2
    · rw [List.cons_append, firstSpan_not_lt _ hc]
      exact ihp hleft2

/-- C4 as stated is false: the line `"<\n>"` contains the non-empty
angle-bracket-delimited span `"\n"`, but the extractor returns the
empty string (the regex's `.` does not match the newline, so the code
falls back to last-token extraction), which is no span's contents. -/
theorem extractClaimC4_false : ¬ extractClaimC4 := by
  intro hcl
  obtain ⟨preB, midB, postB, _, hne, hex⟩ :=
    hcl ['<', '\n', '>'] [] ['\n'] [] rfl (by decide)
  have hval : extract_email ['<', '\n', '>'] = [] := by decide
  rw [hval] at hex
  exact hne hex.symm

/-- C4 amended: when the line contains a non-empty angle-bracket span
whose contents include no newline, the extractor returns verbatim the
contents of the first such match — the leftmost `'<'` admitting a
viable close, lazily closed at the first viable `'>'`; only when no
such (newline-free) span exists does it fall back to the last
whitespace token stripped of angle brackets (empty if the line has at
most one token). -/
theorem extract_email_spec (line : List Char) :
    (∀ pre mid post : List Char,
      line = pre ++ '<' :: (mid ++ '>' :: post) →
      mid ≠ [] → '\n' ∉ mid → '>' ∉ mid.drop 1 →
      (∀ pre1 rest1, pre = pre1 ++ '<' :: rest1 →
        ¬ ∃ m p, rest1 ++ '<' :: (mid ++ '>' :: post) = m ++ '>' :: p ∧
          m ≠ [] ∧ '\n' ∉ m) →
      extract_email line = mid) ∧
    ((¬ ∃ pre mid post : List Char,
        line = pre ++ '<' :: (mid ++ '>' :: post) ∧ mid ≠ [] ∧ '\n' ∉ mid) →
      ((tokens line).length > 1 →
        extract_email line = stripAngles ((tokens line).getLastD [])) ∧
      (¬ (tokens line).length > 1 → extract_email line = [])) := by
  constructor
  · intro pre mid post heq hne hnl hgt hleft
    have hfs : firstSpan line = some mid := by
      rw [heq]
      exact firstSpan_complete mid post hne hnl hgt pre hleft
    simp [extract_email, hfs]
  · intro hno
    have hfs : firstSpan line = none := by
      cases h : firstSpan line with
      | none => rfl
      | some out => exact absurd (firstSpan_sound line out h) hno
    constructor
    · intro hlen
      simp [extract_email, hfs, hlen]
    · intro hlen
      simp [extract_email, hfs, hlen]

/-- Witness for `extract_email_spec` at the spec's own example
`"RCPT TO:<bob@example.com>"`. -/
theorem extract_email_spec_witness :
    extract_email (String.toList "RCPT TO:<bob@example.com>") =
      String.toList "bob@example.com" := by
  refine (extract_email_spec (String.toList "RCPT TO:<bob@example.com>")).1
    (String.toList "RCPT TO:") (String.toList "bob@example.com") []
    (by decide) (by decide) (by decide) (by decide) ?_
  intro pre1 rest1 hp
  exfalso
  have hm : '<' ∈ String.toList "RCPT TO:" := by
    rw [hp]
    exact List.mem_append_right _ (List.mem_cons_self _ _)
  exact absurd hm (by decide)

end EST
